import Mathlib

/-!
Shallow embedding of the MIPS 5-stage pipeline simulator
(`src/pipeline.js`, class `MIPSPipeline`; a second observed variant of the
same program lives in `src/unnamed/part_000`).  The claims below are settled
against `src/pipeline.js`, which the spec was written from; where the two
variants differ (branch handling, structural hazard) `src/pipeline.js` is
the one the claim sources point at.

Modelling conventions:
- JavaScript runtime values that flow through the pipeline slots are modelled
  by `RVal` (a number, a boolean produced by `beq`, `undefined`, or `NaN`).
- The register file (`this.registradores = new Array(32).fill(0)`) is a total
  function `Nat → RVal`, initially `num 0` below index 32 and `undefv` above,
  matching JS array reads; writes extend the array at any index as in JS.
  A write through an `undefined` register field (impossible for instructions
  produced by the loader) creates a non-numeric property in JS, invisible to
  the numeric reads the engine performs, so it is modelled as a no-op.
- The memory (`this.memoria = new Array(1024).fill(0)`) is a total function
  `Int → RVal`; the engine indexes it with `address / 4`.  A fractional or
  otherwise non-numeric index (misaligned address, NaN) reads back
  `undefined` in JS on first access; writes to such indexes create
  non-integer properties that the word-aligned engine reads never observe,
  so they are modelled as no-ops.
- JS `Map`s (branch predictor, instruction cache, label table) are modelled
  as insertion-ordered association lists with `Map.get`/`has`/`set`
  semantics.
-/

/-- JavaScript values that occur in registers, memory and pipeline slots. -/
inductive RVal where
  | num (n : Int)
  | boolv (b : Bool)
  | undefv
  | nan
deriving DecidableEq

/-- JS `ToNumber` on the values we track, `none` meaning NaN. -/
def RVal.toNum : RVal → Option Int
  | .num n => some n
  | .boolv b => some (if b then 1 else 0)
  | .undefv => none
  | .nan => none

/-- JS `+` on tracked values. -/
def rvAdd (a b : RVal) : RVal :=
  match a.toNum, b.toNum with
  | some x, some y => .num (x + y)
  | _, _ => .nan

/-- JS `-` on tracked values. -/
def rvSub (a b : RVal) : RVal :=
  match a.toNum, b.toNum with
  | some x, some y => .num (x - y)
  | _, _ => .nan

/-- JS `*` on tracked values. -/
def rvMul (a b : RVal) : RVal :=
  match a.toNum, b.toNum with
  | some x, some y => .num (x * y)
  | _, _ => .nan

/-- JS strict equality `===` on tracked values (`NaN === NaN` is false). -/
def jsStrictEq : RVal → RVal → Bool
  | .num a, .num b => a == b
  | .boolv a, .boolv b => a == b
  | .undefv, .undefv => true
  | _, _ => false

/-- JS truthiness of a tracked value. -/
def RVal.truthy : RVal → Bool
  | .num n => !(n == 0)
  | .boolv b => b
  | .undefv => false
  | .nan => false

/-- JS `v || 0`, used for every register read feeding the datapath. -/
def orZero (v : RVal) : RVal := if v.truthy then v else .num 0

/-- `InstructionType` from the source. -/
inductive InstrType where
  | R_TYPE
  | I_TYPE
  | J_TYPE
  | NOP
deriving DecidableEq

/-- A parsed instruction object: `type`, `opcode` and the operand fields,
each possibly absent (JS `undefined`), exactly as the parser methods build
them. -/
structure Instruction where
  type : InstrType
  opcode : String
  rs : Option Nat := none
  rt : Option Nat := none
  rd : Option Nat := none
  offset : Option Int := none
  target : Option Int := none
deriving DecidableEq

/-- The anonymous `{ type: NOP, opcode: 'nop' }` object used to squash IF. -/
def nopSquash : Instruction := { type := .NOP, opcode := "nop" }

/-- Payload of the ID slot: `{ instruction, rsValue, rtValue }`. -/
structure IDEntry where
  instruction : Instruction
  rsValue : RVal
  rtValue : RVal
deriving DecidableEq

/-- Payload of the EX/MEM/WB slots: `{ instruction, result }`. -/
structure ResEntry where
  instruction : Instruction
  result : RVal
deriving DecidableEq

/-- Read `this.registradores[field]` where the field may be `undefined`. -/
def readReg (regs : Nat → RVal) : Option Nat → RVal
  | some r => regs r
  | none => .undefv

/-- Write `this.registradores[field] = v`; an `undefined` field would create
a non-numeric property, invisible to the engine's numeric reads. -/
def writeReg (regs : Nat → RVal) : Option Nat → RVal → (Nat → RVal)
  | some r, v => fun i => if i = r then v else regs i
  | none, _ => regs

/-- An `undefined`-propagating view of an optional offset/target field. -/
def offv : Option Int → RVal
  | some o => .num o
  | none => .undefv

/-- `this.memoria[address / 4]` for a computed address value. -/
def memRead (mem : Int → RVal) : RVal → RVal
  | .num n => if n % 4 = 0 then mem (n / 4) else .undefv
  | _ => .undefv

/-- `this.memoria[address / 4] = v` for a computed address value. -/
def memWrite (mem : Int → RVal) : RVal → RVal → (Int → RVal)
  | .num n, v => if n % 4 = 0 then (fun i => if i = n / 4 then v else mem i) else mem
  | _, _ => mem

/-- Association list with JS `Map` semantics: `Map.prototype.get`. -/
def mapGet {κ α : Type} [DecidableEq κ] : List (κ × α) → κ → Option α
  | [], _ => none
  | (k', v) :: rest, k => if k' = k then some v else mapGet rest k

/-- JS `Map.prototype.has`. -/
def mapHas {κ α : Type} [DecidableEq κ] (m : List (κ × α)) (k : κ) : Bool :=
  (mapGet m k).isSome

/-- JS `Map.prototype.set`: replace in place if the key exists, else append. -/
def mapSet {κ α : Type} [DecidableEq κ] : List (κ × α) → κ → α → List (κ × α)
  | [], k, v => [(k, v)]
  | (k', v') :: rest, k, v =>
      if k' = k then (k', v) :: rest else (k', v') :: mapSet rest k v

/-- The observable state of a `MIPSPipeline` instance (UI/run-control fields
are out of scope of the spec). -/
structure PipelineState where
  registradores : Nat → RVal
  memoria : Int → RVal
  IF : Option Instruction
  ID : Option IDEntry
  EX : Option ResEntry
  MEM : Option ResEntry
  WB : Option ResEntry
  PC : RVal
  branchPredictor : List (Int × Int)
  instructionCache : List (Int × Instruction)
  stalled : Bool
  cycle : Nat

/-- The constructor state of `MIPSPipeline`. -/
def mipsNew : PipelineState where
  registradores := fun i => if i < 32 then .num 0 else .undefv
  memoria := fun i => if 0 ≤ i ∧ i < 1024 then .num 0 else .undefv
  IF := none
  ID := none
  EX := none
  MEM := none
  WB := none
  PC := .num 0
  branchPredictor := []
  instructionCache := []
  stalled := false
  cycle := 0

/-- `reset()`: every observable field is restored to its construction
value (registers, memory, the five slots, PC, predictor table, instruction
cache, stall flag, cycle counter). -/
def reset (_ : PipelineState) : PipelineState where
  registradores := fun i => if i < 32 then .num 0 else .undefv
  memoria := fun i => if 0 ≤ i ∧ i < 1024 then .num 0 else .undefv
  IF := none
  ID := none
  EX := none
  MEM := none
  WB := none
  PC := .num 0
  branchPredictor := []
  instructionCache := []
  stalled := false
  cycle := 0

/-- `fetchInstruction(address)`: look the address up in the instruction
cache (a NaN or non-numeric PC matches no integer key). -/
def fetchInstruction (s : PipelineState) (addr : RVal) : Option Instruction :=
  match addr with
  | .num n => mapGet s.instructionCache n
  | _ => none

/-- `executeForwarding()`: EX→ID first, then MEM→ID, each overwriting the
cached `rsValue`/`rtValue` of the ID slot when the producing instruction is
R-type and its `rd` matches. -/
def executeForwarding (s : PipelineState) : PipelineState :=
  match s.ID, s.EX with
  | some idp, some exp =>
      let idp :=
        if exp.instruction.type = .R_TYPE then
          let idp :=
            if idp.instruction.rs = exp.instruction.rd then
              { idp with rsValue := exp.result } else idp
          if idp.instruction.rt = exp.instruction.rd then
            { idp with rtValue := exp.result } else idp
        else idp
      let idp :=
        match s.MEM with
        | some memp =>
            if memp.instruction.type = .R_TYPE then
              let idp :=
                if idp.instruction.rs = memp.instruction.rd then
                  { idp with rsValue := memp.result } else idp
              if idp.instruction.rt = memp.instruction.rd then
                { idp with rtValue := memp.result } else idp
            else idp
        | none => idp
      { s with ID := some idp }
  | _, _ => s

/-- `detectStructuralHazard()`. -/
def detectStructuralHazard (s : PipelineState) : Bool :=
  (match s.MEM, s.IF with
   | some memp, some ifi =>
       (memp.instruction.opcode == "lw" || memp.instruction.opcode == "sw") &&
       (ifi.opcode == "lw" || ifi.opcode == "sw")
   | _, _ => false) ||
  (match s.EX, s.ID with
   | some exp, some idp =>
       exp.instruction.opcode == "mul" && idp.instruction.opcode == "mul"
   | _, _ => false)

/-- `detectDataHazard()`. -/
def detectDataHazard (s : PipelineState) : Bool :=
  match s.ID, s.EX with
  | some idp, some exp =>
      (exp.instruction.type == .R_TYPE &&
        (idp.instruction.rs == exp.instruction.rd ||
         idp.instruction.rt == exp.instruction.rd)) ||
      (exp.instruction.opcode == "lw" &&
        (idp.instruction.rs == exp.instruction.rt ||
         idp.instruction.rt == exp.instruction.rt))
  | _, _ => false

/-- `detectControlHazard()`. -/
def detectControlHazard (s : PipelineState) : Bool :=
  match s.ID with
  | some idp => idp.instruction.opcode == "beq" || idp.instruction.opcode == "j"
  | none => false

/-- `detectHazards()`. -/
def detectHazards (s : PipelineState) : Bool :=
  detectStructuralHazard s || detectDataHazard s || detectControlHazard s

/-- `executeWB()`: R-type commits `result` to `rd`, `lw` commits to `rt`,
everything else writes no register; the MEM payload moves to WB. -/
def executeWB (s : PipelineState) : PipelineState :=
  match s.MEM with
  | none => s
  | some p =>
      let regs :=
        if p.instruction.type = .R_TYPE then
          writeReg s.registradores p.instruction.rd p.result
        else if p.instruction.opcode = "lw" then
          writeReg s.registradores p.instruction.rt p.result
        else s.registradores
      { s with registradores := regs, WB := some p, MEM := none }

/-- `executeMEM()`: `lw` replaces the payload result with the loaded word,
`sw` stores `registradores[rt]`; the EX payload moves to MEM. -/
def executeMEM (s : PipelineState) : PipelineState :=
  match s.EX with
  | none => s
  | some p =>
      if p.instruction.opcode = "lw" then
        let address := rvAdd (readReg s.registradores p.instruction.rs) (offv p.instruction.offset)
        { s with MEM := some { instruction := p.instruction, result := memRead s.memoria address },
                 EX := none }
      else if p.instruction.opcode = "sw" then
        let address := rvAdd (readReg s.registradores p.instruction.rs) (offv p.instruction.offset)
        { s with memoria := memWrite s.memoria address (readReg s.registradores p.instruction.rt),
                 MEM := some p, EX := none }
      else
        { s with MEM := some p, EX := none }

/-- `executeEX()`: compute on the cached (possibly forwarded) operand
values; the `switch` leaves `result` undefined for opcodes it does not
list. -/
def executeEX (s : PipelineState) : PipelineState :=
  match s.ID with
  | none => s
  | some idp =>
      let result : RVal :=
        if idp.instruction.opcode = "add" then rvAdd idp.rsValue idp.rtValue
        else if idp.instruction.opcode = "sub" then rvSub idp.rsValue idp.rtValue
        else if idp.instruction.opcode = "mul" then rvMul idp.rsValue idp.rtValue
        else if idp.instruction.opcode = "beq" then .boolv (jsStrictEq idp.rsValue idp.rtValue)
        else .undefv
      { s with EX := some { instruction := idp.instruction, result := result }, ID := none }

/-- `executeID()`: resolve `beq`/`j` immediately (taken `beq` sets
`PC = offset*4` and writes a transient NOP into IF; not-taken sets
`PC = PC+4`; `j` sets `PC = target*4` with a transient NOP); every other
opcode sets `PC = PC+4`.  The decoded payload then moves to ID and IF is
cleared, overwriting any transient NOP. -/
def executeID (s : PipelineState) : PipelineState :=
  match s.IF with
  | none => s
  | some instr =>
      let s :=
        if instr.opcode = "beq" then
          let rsValue := orZero (readReg s.registradores instr.rs)
          let rtValue := orZero (readReg s.registradores instr.rt)
          if jsStrictEq rsValue rtValue then
            { s with PC := rvMul (offv instr.offset) (.num 4), IF := some nopSquash }
          else
            { s with PC := rvAdd s.PC (.num 4) }
        else if instr.opcode = "j" then
          { s with PC := rvMul (offv instr.target) (.num 4), IF := some nopSquash }
        else
          { s with PC := rvAdd s.PC (.num 4) }
      { s with
          ID := some { instruction := instr,
                       rsValue := orZero (readReg s.registradores instr.rs),
                       rtValue := orZero (readReg s.registradores instr.rt) },
          IF := none }

/-- `executeIF()`: when not stalled, fetch at PC; a miss leaves IF as it
is. -/
def executeIF (s : PipelineState) : PipelineState :=
  if s.stalled then s
  else
    match fetchInstruction s s.PC with
    | some i => { s with IF := some i }
    | none => s

/-- The hazard-check-and-stall step at the top of `executeCycle()`. -/
def setStall (s : PipelineState) : PipelineState :=
  { s with stalled := detectHazards s }

/-- The cycle-counter increment at the bottom of `executeCycle()`. -/
def incCycle (s : PipelineState) : PipelineState :=
  { s with cycle := s.cycle + 1 }

/-- `executeCycle()`: forwarding, hazard check, then the stages in reverse
order WB, MEM, EX, ID, IF, then the cycle counter. -/
def executeCycle (s : PipelineState) : PipelineState :=
  incCycle (executeIF (executeID (executeEX (executeMEM (executeWB (setStall (executeForwarding s)))))))

/-- `predictBranch(address)`: lazily initialize to weakly-not-taken (1),
then predict taken when the counter is at least 2.  Returns the updated
table together with the prediction. -/
def predictBranch (table : List (Int × Int)) (address : Int) : List (Int × Int) × Bool :=
  let table := if mapHas table address then table else mapSet table address 1
  let state := (mapGet table address).getD 0
  (table, decide (2 ≤ state))

/-- `updateBranchPredictor(address, taken)`: lazily initialize, then
saturating increment toward 3 / decrement toward 0. -/
def updateBranchPredictor (table : List (Int × Int)) (address : Int) (taken : Bool) :
    List (Int × Int) :=
  let table := if mapHas table address then table else mapSet table address 1
  let state := (mapGet table address).getD 0
  let state := if taken then min (state + 1) 3 else max (state - 1) 0
  mapSet table address state

/-!  Program loader (`loadProgram`, `parseInstruction` and the per-shape
parsers).  JS string operations are embedded as structurally recursive
functions on `List Char` so that concrete programs evaluate inside the
kernel.  `String.prototype.split(/\s+/)` is applied by the source only to
trimmed non-empty lines, where it coincides with splitting on whitespace
and dropping empty components. -/

/-- A character of the regex class `\w`. -/
def isWordChar (c : Char) : Bool := c.isAlphanum || c == '_'

/-- JS `String.prototype.trim` (ASCII whitespace suffices here). -/
def trimChars (cs : List Char) : List Char :=
  ((cs.dropWhile Char.isWhitespace).reverse.dropWhile Char.isWhitespace).reverse

/-- JS `String.prototype.split(sep)` for a one-character separator. -/
def splitOnChar (sep : Char) : List Char → List (List Char)
  | [] => [[]]
  | c :: rest =>
      match splitOnChar sep rest with
      | [] => [[c]]
      | cur :: more => if c == sep then [] :: cur :: more else (c :: cur) :: more

/-- Split on a character class, keeping the (possibly empty) pieces. -/
def splitWhen (p : Char → Bool) : List Char → List (List Char)
  | [] => [[]]
  | c :: rest =>
      match splitWhen p rest with
      | [] => [[c]]
      | cur :: more => if p c then [] :: cur :: more else (c :: cur) :: more

/-- JS `line.split(/\s+/)` on a trimmed non-empty line. -/
def splitWs (cs : List Char) : List (List Char) :=
  (splitWhen Char.isWhitespace cs).filter (· ≠ [])

/-- JS `str.replace(',', '')`: remove the first comma only. -/
def removeFirstComma : List Char → List Char
  | [] => []
  | c :: rest => if c == ',' then rest else c :: removeFirstComma rest

/-- Does the line start with `#`? -/
def startsWithHash : List Char → Bool
  | c :: _ => c == '#'
  | [] => false

/-- The digit characters of a register index `0 ≤ n ≤ 31`. -/
def regDigits (n : Nat) : List Char :=
  if n < 10 then [Char.ofNat (48 + n)]
  else [Char.ofNat (48 + n / 10), Char.ofNat (48 + n % 10)]

/-- The characters of the alias `$sN` built by the `RegisterAlias` table. -/
def regChars (n : Nat) : List Char := '$' :: 's' :: regDigits n

/-- `parseRegister(str)`: strip one comma, trim, and look the token up in
the `$s0`..`$s31` alias table; anything else is rejected (`null`). -/
def parseRegister (cs : List Char) : Option Nat :=
  let cs := trimChars (removeFirstComma cs)
  (List.range 32).find? (fun n => cs == regChars n)

/-- Decimal digits to a natural number. -/
def digitsToNat (cs : List Char) : Nat :=
  cs.foldl (fun acc c => acc * 10 + (c.toNat - 48)) 0

/-- JS `parseInt(str)` (radix 10): skip leading whitespace, optional sign,
then a non-empty run of digits; `none` is NaN. -/
def parseIntChars (cs : List Char) : Option Int :=
  let cs := cs.dropWhile Char.isWhitespace
  let (sign, cs) : Int × List Char :=
    match cs with
    | '-' :: rest => (-1, rest)
    | '+' :: rest => (1, rest)
    | _ => (1, cs)
  let digits := cs.takeWhile Char.isDigit
  if digits = [] then none else some (sign * (digitsToNat digits : Int))

/-- Try the regex `/(-?\d+)\((\$\w+)\)/` at the head of the input,
returning the two capture groups. -/
def matchOffsetRegAt (cs : List Char) : Option (List Char × List Char) :=
  let (neg, cs1) : Bool × List Char :=
    match cs with
    | '-' :: rest => (true, rest)
    | _ => (false, cs)
  let digits := cs1.takeWhile Char.isDigit
  if digits = [] then none
  else
    match cs1.drop digits.length with
    | '(' :: '$' :: cs3 =>
        let word := cs3.takeWhile isWordChar
        if word = [] then none
        else
          match cs3.drop word.length with
          | ')' :: _ => some ((if neg then '-' :: digits else digits), '$' :: word)
          | _ => none
    | _ => none

/-- First match of `/(-?\d+)\((\$\w+)\)/` anywhere in the string, as the JS
regex engine finds it (no backtracking is ever needed for this pattern). -/
def matchOffsetReg : List Char → Option (List Char × List Char)
  | [] => none
  | c :: rest =>
      match matchOffsetRegAt (c :: rest) with
      | some r => some r
      | none => matchOffsetReg rest

/-- The label table built by the loader's first pass. -/
abbrev LabelTable := List (List Char × Int)

/-- The regex `^(\w+):\s*(.*)$`: a non-empty run of word characters, a
colon, and the remainder of the line. -/
def labelSplit (cs : List Char) : Option (List Char × List Char) :=
  let lab := cs.takeWhile isWordChar
  match cs.drop lab.length with
  | ':' :: rest => if lab = [] then none else some (lab, rest)
  | _ => none

/-- `parseRTypeInstruction(parts)`: exactly four parts, three valid
registers in order rd, rs, rt; the stored opcode is the raw `parts[0]`. -/
def parseRTypeInstruction (parts : List (List Char)) : Option Instruction :=
  if parts.length ≠ 4 then none
  else
    match parseRegister (parts.getD 1 []), parseRegister (parts.getD 2 []),
          parseRegister (parts.getD 3 []) with
    | some rd, some rs, some rt =>
        some { type := .R_TYPE, opcode := String.mk (parts.getD 0 []),
               rs := some rs, rt := some rt, rd := some rd }
    | _, _, _ => none

/-- `parseITypeInstruction(parts, labels)` for `beq`: four parts, two valid
registers, and an offset that is a known label's instruction index or a
parseable integer. -/
def parseBeq (parts : List (List Char)) (labels : LabelTable) : Option Instruction :=
  if parts.length ≠ 4 then none
  else
    let rs? := parseRegister (parts.getD 1 [])
    let rt? := parseRegister (parts.getD 2 [])
    let offset? :=
      match mapGet labels (parts.getD 3 []) with
      | some idx => some idx
      | none => parseIntChars (parts.getD 3 [])
    match rs?, rt?, offset? with
    | some rs, some rt, some offset =>
        some { type := .I_TYPE, opcode := "beq", rs := some rs, rt := some rt,
               offset := some offset }
    | _, _, _ => none

/-- `parseITypeInstruction(parts, labels)` for `lw`/`sw`: three parts, a
valid `rt`, and an `offset(\$reg)` operand. -/
def parseLwSw (op : String) (parts : List (List Char)) : Option Instruction :=
  if parts.length ≠ 3 then none
  else
    let rt? := parseRegister (parts.getD 1 [])
    match matchOffsetReg (parts.getD 2 []) with
    | none => none
    | some (offStr, regStr) =>
        let offset? := parseIntChars offStr
        let rs? := parseRegister regStr
        match rs?, rt?, offset? with
        | some rs, some rt, some offset =>
            some { type := .I_TYPE, opcode := op, rs := some rs, rt := some rt,
                   offset := some offset }
        | _, _, _ => none

/-- `parseJTypeInstruction(parts, labels)`: two parts and a target that is a
known label's instruction index or a parseable integer; the stored opcode is
the raw `parts[0]`. -/
def parseJTypeInstruction (parts : List (List Char)) (labels : LabelTable) :
    Option Instruction :=
  if parts.length ≠ 2 then none
  else
    let target? :=
      match mapGet labels (parts.getD 1 []) with
      | some idx => some idx
      | none => parseIntChars (parts.getD 1 [])
    match target? with
    | some target =>
        some { type := .J_TYPE, opcode := String.mk (parts.getD 0 []),
               target := some target }
    | none => none

/-- `parseInstruction(line, labels)`: strip an inline `#` comment, trim,
tokenize on whitespace, strip one comma from each operand, and dispatch on
the lowercased opcode. -/
def parseInstruction (line : List Char) (labels : LabelTable) : Option Instruction :=
  let line := trimChars ((splitOnChar '#' line).getD 0 [])
  if line = [] then none
  else
    let parts0 := splitWs line
    let raw := parts0.getD 0 []
    let opcode := raw.map Char.toLower
    let parts := raw :: (parts0.drop 1).map (fun p => trimChars (removeFirstComma p))
    if opcode = "add".toList ∨ opcode = "sub".toList ∨ opcode = "mul".toList then
      parseRTypeInstruction parts
    else if opcode = "beq".toList then parseBeq parts labels
    else if opcode = "lw".toList then parseLwSw "lw" parts
    else if opcode = "sw".toList then parseLwSw "sw" parts
    else if opcode = "j".toList then parseJTypeInstruction parts labels
    else if opcode = "nop".toList then some { type := .NOP, opcode := "nop" }
    else none

/-- One line of the loader's first pass: record `label → address/4` and
advance the address counter when (after label stripping) an instruction
candidate remains. -/
def pass1Step (acc : LabelTable × Int) (line : List Char) : LabelTable × Int :=
  let (labels, address) := acc
  let t0 := trimChars line
  match labelSplit t0 with
  | some (lab, rest) =>
      let labels := mapSet labels lab (address / 4)
      let t := trimChars rest
      if t ≠ [] ∧ ¬ startsWithHash t then (labels, address + 4) else (labels, address)
  | none =>
      if t0 ≠ [] ∧ ¬ startsWithHash t0 then (labels, address + 4) else (labels, address)

/-- Strip a leading `label:` (second pass). -/
def stripLabel (cs : List Char) : List Char :=
  match labelSplit cs with
  | some (_, rest) => trimChars rest
  | none => cs

/-- One line of the loader's second pass: parse the instruction text and, on
success, store it at the current address; the address advances for every
instruction candidate, accepted or rejected. -/
def pass2Step (labels : LabelTable) (acc : List (Int × Instruction) × Int)
    (line : List Char) : List (Int × Instruction) × Int :=
  let (cache, address) := acc
  let t := stripLabel (trimChars line)
  if t ≠ [] ∧ ¬ startsWithHash t then
    let cache :=
      match parseInstruction t labels with
      | some i => mapSet cache address i
      | none => cache
    (cache, address + 4)
  else (cache, address)

/-- `loadProgram(programText)`: clear the instruction cache and PC, then run
the two passes over the lines of the program. -/
def loadProgram (s : PipelineState) (programText : String) : PipelineState :=
  let lines := splitOnChar '\n' programText.toList
  let labels := (lines.foldl pass1Step ([], 0)).1
  let cache := (lines.foldl (pass2Step labels) ([], 0)).1
  { s with instructionCache := cache, PC := .num 0 }

/-!  Helper lemmas about the `Map` model. -/

theorem mapGet_set_self {κ α : Type} [DecidableEq κ] (m : List (κ × α)) (k : κ) (v : α) :
    mapGet (mapSet m k v) k = some v := by
  induction m with
  | nil => simp [mapSet, mapGet]
  | cons hd tl ih =>
      obtain ⟨k', v'⟩ := hd
      by_cases h : k' = k <;> simp [mapSet, mapGet, h, ih]

theorem mapHas_set_self {κ α : Type} [DecidableEq κ] (m : List (κ × α)) (k : κ) (v : α) :
    mapHas (mapSet m k v) k = true := by
  simp [mapHas, mapGet_set_self]

theorem mem_of_mapGet_eq_some {κ α : Type} [DecidableEq κ] {m : List (κ × α)} {k : κ} {v : α}
    (h : mapGet m k = some v) : (k, v) ∈ m := by
  induction m with
  | nil => simp [mapGet] at h
  | cons hd tl ih =>
      obtain ⟨k', v'⟩ := hd
      by_cases hk : k' = k
      · subst hk
        simp [mapGet] at h
        subst h
        exact List.mem_cons_self _ _
      · simp [mapGet, hk] at h
        exact List.mem_cons_of_mem _ (ih h)

theorem mem_mapSet_cases {κ α : Type} [DecidableEq κ] {m : List (κ × α)} {k : κ} {v : α}
    {p : κ × α} (h : p ∈ mapSet m k v) : p.2 = v ∨ p ∈ m := by
  induction m with
  | nil =>
      simp [mapSet] at h
      subst h
      exact Or.inl rfl
  | cons hd tl ih =>
      obtain ⟨k', v'⟩ := hd
      by_cases hk : k' = k
      · simp [mapSet, hk] at h
        rcases h with h | h
        · subst h; exact Or.inl rfl
        · exact Or.inr (List.mem_cons_of_mem _ h)
      · simp [mapSet, hk] at h
        rcases h with h | h
        · subst h; exact Or.inr (List.mem_cons_self _ _)
        · rcases ih h with h' | h'
          · exact Or.inl h'
          · exact Or.inr (List.mem_cons_of_mem _ h')

theorem mapGet_mapSet_ne {κ α : Type} [DecidableEq κ] (m : List (κ × α)) {k k' : κ}
    (v : α) (h : k' ≠ k) : mapGet (mapSet m k' v) k = mapGet m k := by
  induction m with
  | nil => simp [mapSet, mapGet, h]
  | cons hd tl ih =>
      obtain ⟨k₀, v₀⟩ := hd
      by_cases h0 : k₀ = k'
      · subst h0
        simp [mapSet, mapGet, h]
      · simp [mapSet, mapGet, h0, ih]

theorem mapHas_mapSet_mono {κ α : Type} [DecidableEq κ] {m : List (κ × α)} {k : κ}
    (k' : κ) (v : α) (h : mapHas m k = true) : mapHas (mapSet m k' v) k = true := by
  by_cases hk : k' = k
  · subst hk; exact mapHas_set_self m k' v
  · rw [mapHas, mapGet_mapSet_ne m v hk]
    exact h

theorem mapGet_mapSet_cases {κ α : Type} [DecidableEq κ] {m : List (κ × α)} {k k' : κ}
    {v i : α} (h : mapGet (mapSet m k' v) k = some i) :
    k = k' ∨ mapGet m k = some i := by
  by_cases hk : k' = k
  · exact Or.inl hk.symm
  · rw [mapGet_mapSet_ne m v hk] at h
    exact Or.inr h

/-!  Frame lemmas about the individual stages, used for the per-cycle PC
claims. -/

theorem executeForwarding_IF (s : PipelineState) : (executeForwarding s).IF = s.IF := by
  cases hID : s.ID <;> cases hEX : s.EX <;> simp [executeForwarding, hID, hEX]

theorem executeForwarding_PC (s : PipelineState) : (executeForwarding s).PC = s.PC := by
  cases hID : s.ID <;> cases hEX : s.EX <;> simp [executeForwarding, hID, hEX]

theorem setStall_IF (s : PipelineState) : (setStall s).IF = s.IF := rfl

theorem setStall_PC (s : PipelineState) : (setStall s).PC = s.PC := rfl

theorem executeWB_IF (s : PipelineState) : (executeWB s).IF = s.IF := by
  cases h : s.MEM <;> simp [executeWB, h]

theorem executeWB_PC (s : PipelineState) : (executeWB s).PC = s.PC := by
  cases h : s.MEM <;> simp [executeWB, h]

theorem executeMEM_IF (s : PipelineState) : (executeMEM s).IF = s.IF := by
  cases h : s.EX with
  | none => simp [executeMEM, h]
  | some p => simp only [executeMEM, h]; split_ifs <;> rfl

theorem executeMEM_PC (s : PipelineState) : (executeMEM s).PC = s.PC := by
  cases h : s.EX with
  | none => simp [executeMEM, h]
  | some p => simp only [executeMEM, h]; split_ifs <;> rfl

theorem executeEX_IF (s : PipelineState) : (executeEX s).IF = s.IF := by
  cases h : s.ID <;> simp [executeEX, h]

theorem executeEX_PC (s : PipelineState) : (executeEX s).PC = s.PC := by
  cases h : s.ID <;> simp [executeEX, h]

theorem executeID_of_IF_none {s : PipelineState} (h : s.IF = none) : executeID s = s := by
  simp [executeID, h]

theorem executeIF_PC (s : PipelineState) : (executeIF s).PC = s.PC := by
  by_cases h : s.stalled <;> simp only [executeIF, h] <;> try rfl
  cases hf : fetchInstruction s s.PC <;> simp

theorem incCycle_PC (s : PipelineState) : (incCycle s).PC = s.PC := rfl

/-- C10: with an empty IF slot at the start of a cycle, `executeCycle`
leaves PC unchanged — PC only advances when the ID stage consumes an
instruction out of IF, never in the fetch stage, so a program that has run
off the end of the instruction store stops advancing PC. -/
theorem C10_pc_unchanged_when_IF_empty (s : PipelineState) (h : s.IF = none) :
    (executeCycle s).PC = s.PC := by
  have h1 : (executeEX (executeMEM (executeWB (setStall (executeForwarding s))))).IF = none := by
    rw [executeEX_IF, executeMEM_IF, executeWB_IF, setStall_IF, executeForwarding_IF, h]
  rw [executeCycle, executeID_of_IF_none h1, incCycle_PC, executeIF_PC, executeEX_PC,
    executeMEM_PC, executeWB_PC, setStall_PC, executeForwarding_PC]

/-- Witness for C10 at the freshly constructed engine. -/
theorem C10_pc_unchanged_when_IF_empty_witness :
    mipsNew.IF = none ∧ (executeCycle mipsNew).PC = mipsNew.PC :=
  ⟨rfl, C10_pc_unchanged_when_IF_empty mipsNew rfl⟩

/-- C9: `reset` is idempotent and returns the engine to the observable
initial-construction state (registers, memory, the five slots, PC,
predictor table, instruction store, cycle count, stall flag). -/
theorem C9_reset_idempotent (s : PipelineState) :
    reset (reset s) = reset s ∧ reset s = mipsNew :=
  ⟨rfl, rfl⟩

/-!  Predictor lemmas shared by the predictor claims. -/

theorem updateBranchPredictor_on_set (m : List (Int × Int)) (a : Int) (v : Int) :
    updateBranchPredictor (mapSet m a v) a true = mapSet (mapSet m a v) a (min (v + 1) 3) := by
  simp [updateBranchPredictor, mapHas_set_self, mapGet_set_self]

theorem predictBranch_on_set (m : List (Int × Int)) (a : Int) (v : Int) :
    (predictBranch (mapSet m a v) a).2 = decide (2 ≤ v) := by
  simp [predictBranch, mapHas_set_self, mapGet_set_self]

/-- C3: an unseen address predicts not-taken; three consecutive
`update(a, true)` calls saturate its counter at 3 and the prediction is
taken; one further `update(a, true)` keeps the counter at 3 and the
prediction taken. -/
theorem C3_predictor_saturation (t : List (Int × Int)) (a : Int)
    (h : mapHas t a = false) :
    (predictBranch t a).2 = false ∧
    mapGet (updateBranchPredictor (updateBranchPredictor (updateBranchPredictor t a true) a true) a true) a = some 3 ∧
    (predictBranch (updateBranchPredictor (updateBranchPredictor (updateBranchPredictor t a true) a true) a true) a).2 = true ∧
    mapGet (updateBranchPredictor (updateBranchPredictor (updateBranchPredictor (updateBranchPredictor t a true) a true) a true) a true) a = some 3 ∧
    (predictBranch (updateBranchPredictor (updateBranchPredictor (updateBranchPredictor (updateBranchPredictor t a true) a true) a true) a true) a).2 = true := by
  have e0 : updateBranchPredictor t a true = mapSet (mapSet t a 1) a 2 := by
    have e : updateBranchPredictor t a true = mapSet (mapSet t a 1) a (min (1 + 1) 3) := by
      simp [updateBranchPredictor, h, mapGet_set_self]
    rw [e]; norm_num
  have e1 : updateBranchPredictor (updateBranchPredictor t a true) a true =
      mapSet (mapSet (mapSet t a 1) a 2) a 3 := by
    rw [e0, updateBranchPredictor_on_set]; norm_num
  have e2 : updateBranchPredictor (updateBranchPredictor (updateBranchPredictor t a true) a true) a true =
      mapSet (mapSet (mapSet (mapSet t a 1) a 2) a 3) a 3 := by
    rw [e1, updateBranchPredictor_on_set]; norm_num
  have e3 : updateBranchPredictor (updateBranchPredictor (updateBranchPredictor (updateBranchPredictor t a true) a true) a true) a true =
      mapSet (mapSet (mapSet (mapSet (mapSet t a 1) a 2) a 3) a 3) a 3 := by
    rw [e2, updateBranchPredictor_on_set]; norm_num
  refine ⟨?_, ?_, ?_, ?_, ?_⟩
  · simp [predictBranch, h, mapGet_set_self]
  · rw [e2, mapGet_set_self]
  · rw [e2, predictBranch_on_set]; norm_num
  · rw [e3, mapGet_set_self]
  · rw [e3, predictBranch_on_set]; norm_num

/-- Witness for C3 at the empty predictor table and address 0. -/
theorem C3_predictor_saturation_witness :
    mapHas ([] : List (Int × Int)) 0 = false ∧
    ((predictBranch ([] : List (Int × Int)) 0).2 = false ∧
      mapGet (updateBranchPredictor (updateBranchPredictor (updateBranchPredictor ([] : List (Int × Int)) 0 true) 0 true) 0 true) 0 = some 3 ∧
      (predictBranch (updateBranchPredictor (updateBranchPredictor (updateBranchPredictor ([] : List (Int × Int)) 0 true) 0 true) 0 true) 0).2 = true ∧
      mapGet (updateBranchPredictor (updateBranchPredictor (updateBranchPredictor (updateBranchPredictor ([] : List (Int × Int)) 0 true) 0 true) 0 true) 0 true) 0 = some 3 ∧
      (predictBranch (updateBranchPredictor (updateBranchPredictor (updateBranchPredictor (updateBranchPredictor ([] : List (Int × Int)) 0 true) 0 true) 0 true) 0 true) 0).2 = true) := by
  refine ⟨by decide, ?_⟩
  have h := C3_predictor_saturation ([] : List (Int × Int)) 0 (by decide)
  exact h

/-- A call made against the predictor interface. -/
inductive PredOp where
  | predictOp (a : Int)
  | updateOp (a : Int) (taken : Bool)

/-- Effect of one predictor call on the table. -/
def applyPredOp (t : List (Int × Int)) : PredOp → List (Int × Int)
  | .predictOp a => (predictBranch t a).1
  | .updateOp a taken => updateBranchPredictor t a taken

/-- Effect of a sequence of predictor calls on the table. -/
def applyPredOps (t : List (Int × Int)) (ops : List PredOp) : List (Int × Int) :=
  ops.foldl applyPredOp t

/-- Every counter in the table lies in {0,1,2,3}. -/
def tableWF (t : List (Int × Int)) : Bool :=
  t.all (fun p => decide (0 ≤ p.2) && decide (p.2 ≤ 3))

theorem tableWF_mem {t : List (Int × Int)} (h : tableWF t = true) {p : Int × Int}
    (hp : p ∈ t) : 0 ≤ p.2 ∧ p.2 ≤ 3 := by
  rw [tableWF, List.all_eq_true] at h
  simpa using h p hp

theorem tableWF_mapSet {t : List (Int × Int)} (h : tableWF t = true) {a v : Int}
    (h0 : 0 ≤ v) (h1 : v ≤ 3) : tableWF (mapSet t a v) = true := by
  rw [tableWF, List.all_eq_true]
  intro p hp
  rcases mem_mapSet_cases hp with h2 | h2
  · simp [h2, h0, h1]
  · have h3 := tableWF_mem h h2
    simp [h3.1, h3.2]

theorem tableWF_getD {t : List (Int × Int)} (h : tableWF t = true) (a : Int) :
    0 ≤ (mapGet t a).getD 0 ∧ (mapGet t a).getD 0 ≤ 3 := by
  cases hg : mapGet t a with
  | none => simp
  | some v => simpa using tableWF_mem h (mem_of_mapGet_eq_some hg)

theorem lazyInit_wf {t : List (Int × Int)} (a : Int) (h : tableWF t = true) :
    tableWF (if mapHas t a = true then t else mapSet t a 1) = true := by
  by_cases hh : mapHas t a = true
  · simpa [hh] using h
  · simp only [hh, if_false]
    exact tableWF_mapSet h (by norm_num) (by norm_num)

theorem applyPredOp_wf (t : List (Int × Int)) (op : PredOp) (h : tableWF t = true) :
    tableWF (applyPredOp t op) = true := by
  cases op with
  | predictOp a =>
      simpa only [applyPredOp, predictBranch] using lazyInit_wf a h
  | updateOp a taken =>
      simp only [applyPredOp, updateBranchPredictor]
      have hwf := lazyInit_wf a h
      have hb := tableWF_getD hwf a
      refine tableWF_mapSet hwf ?_ ?_
      · split
        · exact le_min (by linarith [hb.1]) (by norm_num)
        · exact le_max_right _ _
      · split
        · exact min_le_right _ _
        · exact max_le (by linarith [hb.2]) (by norm_num)

theorem applyPredOp_has (t : List (Int × Int)) (op : PredOp) (k : Int)
    (h : mapHas t k = true) : mapHas (applyPredOp t op) k = true := by
  cases op with
  | predictOp a =>
      simp only [applyPredOp, predictBranch]
      by_cases hh : mapHas t a = true
      · simpa [hh] using h
      · simp only [hh, if_false]
        exact mapHas_mapSet_mono a 1 h
  | updateOp a taken =>
      simp only [applyPredOp, updateBranchPredictor]
      have h1 : mapHas (if mapHas t a = true then t else mapSet t a 1) k = true := by
        by_cases hh : mapHas t a = true
        · simpa [hh] using h
        · simp only [hh, if_false]
          exact mapHas_mapSet_mono a 1 h
      exact mapHas_mapSet_mono a _ h1

theorem applyPredOps_wf_has (ops : List PredOp) (t : List (Int × Int))
    (h : tableWF t = true) :
    tableWF (applyPredOps t ops) = true ∧
    ∀ k, mapHas t k = true → mapHas (applyPredOps t ops) k = true := by
  induction ops generalizing t with
  | nil => exact ⟨h, fun _ hk => hk⟩
  | cons op rest ih =>
      obtain ⟨hw, hh⟩ := ih (applyPredOp t op) (applyPredOp_wf t op h)
      exact ⟨hw, fun k hk => hh k (applyPredOp_has t op k hk)⟩

/-- C8: starting from any table whose counters lie in {0,1,2,3}, any
sequence of `predict`/`update` calls keeps every counter in {0,1,2,3} and
never removes an entry; only a full `reset` empties the table. -/
theorem C8_predictor_invariants (t : List (Int × Int)) (ops : List PredOp)
    (h : tableWF t = true) :
    tableWF (applyPredOps t ops) = true ∧
    (∀ k, mapHas t k = true → mapHas (applyPredOps t ops) k = true) ∧
    (∀ s, (reset s).branchPredictor = []) := by
  obtain ⟨hw, hh⟩ := applyPredOps_wf_has ops t h
  exact ⟨hw, hh, fun _ => rfl⟩

/-- Witness for C8 at a concrete table and call sequence. -/
theorem C8_predictor_invariants_witness :
    tableWF [((7 : Int), (2 : Int))] = true ∧
    (tableWF (applyPredOps [((7 : Int), (2 : Int))]
        [.updateOp 7 true, .predictOp 3, .updateOp 3 false]) = true ∧
      (∀ k, mapHas [((7 : Int), (2 : Int))] k = true →
        mapHas (applyPredOps [((7 : Int), (2 : Int))]
          [.updateOp 7 true, .predictOp 3, .updateOp 3 false]) k = true) ∧
      (∀ s, (reset s).branchPredictor = [])) :=
  ⟨by decide, C8_predictor_invariants [((7 : Int), (2 : Int))]
    [.updateOp 7 true, .predictOp 3, .updateOp 3 false] (by decide)⟩

/-- C4, structural clause, as the claim states it. -/
def C4structuralSpec (s : PipelineState) : Prop :=
  (∃ memp ifi, s.MEM = some memp ∧ s.IF = some ifi ∧
     (memp.instruction.opcode = "lw" ∨ memp.instruction.opcode = "sw") ∧
     (ifi.opcode = "lw" ∨ ifi.opcode = "sw")) ∨
  (∃ exp idp, s.EX = some exp ∧ s.ID = some idp ∧
     exp.instruction.opcode = "mul" ∧ idp.instruction.opcode = "mul")

/-- C4, data clause, as the claim states it. -/
def C4dataSpec (s : PipelineState) : Prop :=
  ∃ exp idp, s.EX = some exp ∧ s.ID = some idp ∧
    ((exp.instruction.type = InstrType.R_TYPE ∧
       (idp.instruction.rs = exp.instruction.rd ∨ idp.instruction.rt = exp.instruction.rd)) ∨
     (exp.instruction.opcode = "lw" ∧
       (idp.instruction.rs = exp.instruction.rt ∨ idp.instruction.rt = exp.instruction.rt)))

/-- C4, control clause, as the claim states it. -/
def C4controlSpec (s : PipelineState) : Prop :=
  ∃ idp, s.ID = some idp ∧ (idp.instruction.opcode = "beq" ∨ idp.instruction.opcode = "j")

set_option maxHeartbeats 1000000 in
/-- C4: the hazard detector fires exactly on the disjunction of the
structural, data and control conditions of the claim. -/
theorem C4_detectHazards_iff (s : PipelineState) :
    detectHazards s = true ↔ (C4structuralSpec s ∨ C4dataSpec s ∨ C4controlSpec s) := by
  cases hIF : s.IF <;> cases hID : s.ID <;> cases hEX : s.EX <;> cases hMM : s.MEM <;>
    simp [detectHazards, detectStructuralHazard, detectDataHazard, detectControlHazard,
      C4structuralSpec, C4dataSpec, C4controlSpec, hIF, hID, hEX, hMM] <;>
    tauto

/-- C6: with an occupied MEM slot, write-back commits `result` to `rd` for
R-type, to `rt` for `lw`, and touches no register for any other opcode; in
all cases the MEM payload moves to WB, MEM is cleared, and every other
observable field is unchanged. -/
theorem C6_writeback (s : PipelineState) (p : ResEntry) (h : s.MEM = some p) :
    (executeWB s).WB = some p ∧ (executeWB s).MEM = none ∧
    (p.instruction.type = InstrType.R_TYPE →
      (executeWB s).registradores = writeReg s.registradores p.instruction.rd p.result) ∧
    (p.instruction.type ≠ InstrType.R_TYPE → p.instruction.opcode = "lw" →
      (executeWB s).registradores = writeReg s.registradores p.instruction.rt p.result) ∧
    (p.instruction.type ≠ InstrType.R_TYPE → p.instruction.opcode ≠ "lw" →
      (executeWB s).registradores = s.registradores) ∧
    (executeWB s).IF = s.IF ∧ (executeWB s).ID = s.ID ∧ (executeWB s).EX = s.EX ∧
    (executeWB s).PC = s.PC ∧ (executeWB s).memoria = s.memoria ∧
    (executeWB s).branchPredictor = s.branchPredictor ∧
    (executeWB s).instructionCache = s.instructionCache ∧
    (executeWB s).stalled = s.stalled ∧ (executeWB s).cycle = s.cycle := by
  refine ⟨?_, ?_, ?_, ?_, ?_, ?_, ?_, ?_, ?_, ?_, ?_, ?_, ?_, ?_⟩
  · simp [executeWB, h]
  · simp [executeWB, h]
  · intro ht
    simp [executeWB, h, ht]
  · intro ht hop
    simp [executeWB, h, ht, hop]
  · intro ht hop
    simp [executeWB, h, ht, hop]
  · simp [executeWB, h]
  · simp [executeWB, h]
  · simp [executeWB, h]
  · simp [executeWB, h]
  · simp [executeWB, h]
  · simp [executeWB, h]
  · simp [executeWB, h]
  · simp [executeWB, h]
  · simp [executeWB, h]

/-- Concrete state for the C6 witness: an `add $s1, $s2, $s3` with result 7
sitting in MEM. -/
def stC6 : PipelineState :=
  { mipsNew with
      MEM := some { instruction := { type := .R_TYPE, opcode := "add",
                                     rs := some 2, rt := some 3, rd := some 1 },
                    result := .num 7 } }

/-- Payload of `stC6`'s MEM slot. -/
def pC6 : ResEntry :=
  { instruction := { type := .R_TYPE, opcode := "add", rs := some 2, rt := some 3, rd := some 1 },
    result := .num 7 }

/-- Witness for C6 at `stC6`. -/
theorem C6_writeback_witness :
    stC6.MEM = some pC6 ∧ (executeWB stC6).WB = some pC6 ∧ (executeWB stC6).MEM = none ∧
    (executeWB stC6).registradores = writeReg stC6.registradores pC6.instruction.rd pC6.result :=
  ⟨rfl, (C6_writeback stC6 pC6 rfl).1, (C6_writeback stC6 pC6 rfl).2.1,
    (C6_writeback stC6 pC6 rfl).2.2.1 rfl⟩

/-- Concrete state for C1: EX holds `add $s1, $s2, $s3` with result 10, MEM
holds `add $s1, $s4, $s5` with result 20, and the instruction in ID reads
`$s1` as its rs operand. -/
def stC1 : PipelineState :=
  { mipsNew with
      ID := some { instruction := { type := .R_TYPE, opcode := "add",
                                    rs := some 1, rt := some 6, rd := some 7 },
                   rsValue := .num 0, rtValue := .num 0 },
      EX := some { instruction := { type := .R_TYPE, opcode := "add",
                                    rs := some 2, rt := some 3, rd := some 1 },
                   result := .num 10 },
      MEM := some { instruction := { type := .R_TYPE, opcode := "add",
                                     rs := some 4, rt := some 5, rd := some 1 },
                    result := .num 20 } }

/-- C1 counterexample: with EX and MEM both R-type targeting `$s1` and ID
reading `$s1`, the forwarded operand is the MEM result (20), not the EX
result (10) — MEM→ID runs after EX→ID and overwrites it. -/
theorem C1_counterexample :
    (executeForwarding stC1).ID.map IDEntry.rsValue = some (RVal.num 20) ∧
    ¬ (executeForwarding stC1).ID.map IDEntry.rsValue = some (RVal.num 10) := by
  decide

/-- C1 amended: in the EX/MEM collision of the claim, the ID slot's cached
operand ends up equal to the MEM slot's result (the later MEM→ID pass
overwrites the EX→ID pass). -/
theorem C1_mem_overwrites_ex (s : PipelineState) (idp : IDEntry) (exp memp : ResEntry)
    (d : Nat) (hID : s.ID = some idp) (hEX : s.EX = some exp) (hMEM : s.MEM = some memp)
    (hext : exp.instruction.type = InstrType.R_TYPE) (hexd : exp.instruction.rd = some d)
    (hmt : memp.instruction.type = InstrType.R_TYPE) (hmd : memp.instruction.rd = some d) :
    (idp.instruction.rs = some d →
      (executeForwarding s).ID.map IDEntry.rsValue = some memp.result) ∧
    (idp.instruction.rt = some d →
      (executeForwarding s).ID.map IDEntry.rtValue = some memp.result) := by
  simp only [executeForwarding, hID, hEX, hMEM]
  constructor
  · intro hrs
    by_cases h1 : idp.instruction.rt = some d
    · simp [hext, hexd, hmt, hmd, hrs, h1]
    · simp [hext, hexd, hmt, hmd, hrs, h1]
  · intro hrt
    by_cases h1 : idp.instruction.rs = some d
    · simp [hext, hexd, hmt, hmd, hrt, h1]
    · simp [hext, hexd, hmt, hmd, hrt, h1]

/-- Witness for C1's amended statement at `stC1`. -/
theorem C1_mem_overwrites_ex_witness :
    stC1.ID.map (fun p => p.instruction.rs) = some (some 1) ∧
    (executeForwarding stC1).ID.map IDEntry.rsValue =
      some (RVal.num 20) := by
  refine ⟨rfl, ?_⟩
  have h := C1_mem_overwrites_ex stC1
    { instruction := { type := .R_TYPE, opcode := "add", rs := some 1, rt := some 6, rd := some 7 },
      rsValue := .num 0, rtValue := .num 0 }
    { instruction := { type := .R_TYPE, opcode := "add", rs := some 2, rt := some 3, rd := some 1 },
      result := .num 10 }
    { instruction := { type := .R_TYPE, opcode := "add", rs := some 4, rt := some 5, rd := some 1 },
      result := .num 20 }
    1 rfl rfl rfl rfl rfl rfl rfl
  exact h.1 rfl

/-- The `beq $s0, $s0, 5` instruction used for the C2 counterexample. -/
def beqC2 : Instruction :=
  { type := .I_TYPE, opcode := "beq", rs := some 0, rt := some 0, offset := some 5 }

/-- Concrete state for C2: the beq sits in IF, all registers 0, so the
branch is taken. -/
def stC2 : PipelineState := { mipsNew with IF := some beqC2 }

/-- C2 counterexample: decoding a taken `beq` does set `PC = offset*4`
(here 20), but the IF slot ends the decode empty (`null`), not holding a
NOP — the transient NOP written on the taken path is overwritten when ID
consumes IF and clears it. -/
theorem C2_counterexample :
    (executeID stC2).PC = RVal.num 20 ∧ (executeID stC2).IF = none ∧
    ¬ (executeID stC2).IF = some nopSquash := by
  decide

/-- C2 amended: for a `beq` in IF, decode sets `PC = offset*4` when the
(`|| 0`-read) register values of rs and rt are strictly equal and
`PC = PC+4` otherwise, and unconditionally ends with the IF slot empty; a
`j` in IF likewise ends with IF empty and `PC = target*4`. -/
theorem C2_resolve_in_decode (s : PipelineState) (i : Instruction) (h : s.IF = some i) :
    (i.opcode = "beq" →
      (jsStrictEq (orZero (readReg s.registradores i.rs)) (orZero (readReg s.registradores i.rt)) = true →
        (executeID s).PC = rvMul (offv i.offset) (RVal.num 4)) ∧
      (jsStrictEq (orZero (readReg s.registradores i.rs)) (orZero (readReg s.registradores i.rt)) = false →
        (executeID s).PC = rvAdd s.PC (RVal.num 4)) ∧
      (executeID s).IF = none) ∧
    (i.opcode = "j" →
      (executeID s).PC = rvMul (offv i.target) (RVal.num 4) ∧ (executeID s).IF = none) := by
  constructor
  · intro hop
    refine ⟨?_, ?_, ?_⟩
    · intro heq
      simp [executeID, h, hop, heq]
    · intro heq
      simp [executeID, h, hop, heq]
    · simp [executeID, h]
  · intro hop
    have hne : i.opcode ≠ "beq" := by simp [hop]
    exact ⟨by simp [executeID, h, hop, hne], by simp [executeID, h]⟩

/-- Witness for C2's amended statement at `stC2` (branch taken). -/
theorem C2_resolve_in_decode_witness :
    stC2.IF = some beqC2 ∧
    (executeID stC2).PC = rvMul (offv beqC2.offset) (RVal.num 4) ∧
    (executeID stC2).IF = none :=
  ⟨rfl, ((C2_resolve_in_decode stC2 beqC2 rfl).1 rfl).1 (by decide),
    ((C2_resolve_in_decode stC2 beqC2 rfl).1 rfl).2.2⟩

/-- The claim's program text, with the operands written exactly as in the
claim (no spaces after the commas). -/
def progC5bad : String := "loop: beq $s0,$s0,loop"

/-- The same program with whitespace between operands, as the
whitespace-tokenizing parser requires. -/
def progC5 : String := "loop: beq $s0, $s0, loop"

/-- C5 counterexample: with the claim's exact text `loop: beq $s0,$s0,loop`
the line splits into two whitespace tokens, the `beq` parser requires four,
so the loader stores no instruction at all — nothing sits at address 0 and
the branch is never fetched or decoded. -/
theorem C5_counterexample :
    (loadProgram mipsNew progC5bad).instructionCache = [] ∧
    fetchInstruction (loadProgram mipsNew progC5bad) (RVal.num 0) = none ∧
    (executeCycle (executeCycle (loadProgram mipsNew progC5bad))).ID = none := by
  decide

/-- C5 amended: for `loop: beq $s0, $s0, loop` (operands separated by
whitespace), the loader resolves `loop` to instruction index 0 and stores
the branch at address 0 with offset 0; on the cycle of its first decode
(the second cycle) the engine sets PC to 0, not 4. -/
theorem C5_loop_branch :
    mapGet (loadProgram mipsNew progC5).instructionCache 0 =
      some { type := .I_TYPE, opcode := "beq", rs := some 0, rt := some 0, offset := some 0 } ∧
    (executeCycle (executeCycle (loadProgram mipsNew progC5))).ID.map
      (fun p => p.instruction.opcode) = some "beq" ∧
    (executeCycle (executeCycle (loadProgram mipsNew progC5))).PC = RVal.num 0 ∧
    RVal.num 0 ≠ RVal.num 4 := by
  decide

/-!  C7: loader invariants. -/

theorem pass2Step_cases (labels : LabelTable) (c : List (Int × Instruction)) (a : Int)
    (line : List Char) :
    pass2Step labels (c, a) line = (c, a) ∨
    ((pass2Step labels (c, a) line).2 = a + 4 ∧
      ((pass2Step labels (c, a) line).1 = c ∨
        ∃ i, (pass2Step labels (c, a) line).1 = mapSet c a i)) := by
  simp only [pass2Step]
  split
  · cases hp : parseInstruction (stripLabel (trimChars line)) labels with
    | some i => exact Or.inr ⟨rfl, Or.inr ⟨i, by simp [hp]⟩⟩
    | none => exact Or.inr ⟨rfl, Or.inl (by simp [hp])⟩
  · exact Or.inl rfl

theorem pass2_fold_div4 (labels : LabelTable) (lines : List (List Char)) :
    ∀ (c : List (Int × Instruction)) (a : Int),
      (∀ k i, mapGet c k = some i → (4 : Int) ∣ k) → (4 : Int) ∣ a →
      ∀ k i, mapGet (lines.foldl (pass2Step labels) (c, a)).1 k = some i → (4 : Int) ∣ k := by
  induction lines with
  | nil => exact fun c a hc _ k i hk => hc k i hk
  | cons line rest ih =>
      intro c a hc ha k i hk
      rw [List.foldl_cons] at hk
      rcases pass2Step_cases labels c a line with hcase | ⟨ha2, hcache⟩
      · rw [hcase] at hk
        exact ih c a hc ha k i hk
      · have hpair : pass2Step labels (c, a) line = ((pass2Step labels (c, a) line).1, a + 4) := by
          rw [← ha2]
        rw [hpair] at hk
        rcases hcache with h1 | ⟨j, h1⟩
        · rw [h1] at hk
          exact ih c (a + 4) hc (dvd_add ha (by norm_num)) k i hk
        · rw [h1] at hk
          refine ih (mapSet c a j) (a + 4) ?_ (dvd_add ha (by norm_num)) k i hk
          intro k' i' hk'
          rcases mapGet_mapSet_cases hk' with hk2 | hk2
          · subst hk2; exact ha
          · exact hc k' i' hk2

/-- C7: after any `loadProgram`, every key of the instruction store is a
multiple of 4; and a non-empty non-comment line whose instruction text is
rejected by the parser stores nothing at its address while the address
counter still advances by 4, leaving a hole. -/
theorem C7_loader_invariants :
    (∀ (s : PipelineState) (text : String) (k : Int) (i : Instruction),
        mapGet (loadProgram s text).instructionCache k = some i → (4 : Int) ∣ k) ∧
    (∀ (labels : LabelTable) (c : List (Int × Instruction)) (a : Int) (line : List Char),
        stripLabel (trimChars line) ≠ [] →
        startsWithHash (stripLabel (trimChars line)) = false →
        parseInstruction (stripLabel (trimChars line)) labels = none →
        pass2Step labels (c, a) line = (c, a + 4)) := by
  constructor
  · intro s text k i hk
    exact pass2_fold_div4 _ _ [] 0 (fun k' i' h' => by simp [mapGet] at h') (by norm_num) k i hk
  · intro labels c a line h1 h2 h3
    simp only [pass2Step]
    rw [if_pos ⟨h1, by simp [h2]⟩]
    simp [h3]

/-- Two-line program for the C7 witness: a valid instruction at address 0
and one at address 4. -/
def progC7 : String := "add $s1, $s2, $s3\nsw $s1, 4($s2)"

/-- The instruction the loader stores at address 4 of `progC7`. -/
def swC7 : Instruction :=
  { type := .I_TYPE, opcode := "sw", rs := some 2, rt := some 1, offset := some 4 }

/-- A rejected line for the C7 witness: `$t9` is not a supported register
alias, so the parser returns null. -/
def lineC7 : List Char := "add $t9, $s1, $s2".toList

/-- Witness for C7: address 4 of `progC7` is a multiple of 4, and the
rejected `lineC7` leaves the cache untouched while advancing the address. -/
theorem C7_loader_invariants_witness :
    mapGet (loadProgram mipsNew progC7).instructionCache 4 = some swC7 ∧
    (4 : Int) ∣ (4 : Int) ∧
    parseInstruction (stripLabel (trimChars lineC7)) [] = none ∧
    pass2Step [] ([], 0) lineC7 = ([], 0 + 4) :=
  ⟨by decide, C7_loader_invariants.1 mipsNew progC7 4 swC7 (by decide), by decide,
    C7_loader_invariants.2 [] [] 0 lineC7 (by decide) (by decide) (by decide)⟩
